import Mathlib

/-!
Shallow embedding of the tsalib dimension-algebra engine.

The repository's notebooks exercise a symbolic shape engine (`tsalib`): a
dimension-variable registry, a symbolic expression algebra with `+ - * //`,
a shorthand-notation compiler for transform specs such as
`'btd -> b,t,4,d//4'`, the transform resolvers `view_transform`,
`permute_transform`, `expand_transform`, the `warp` sequencer and the
reduction resolver `agg_dims`.  The engine's implementation file is not part
of the corpus (only its notebook tests and a traceback fragment are), so the
definitions below are modelled from the specification document and checked
against the notebook fixtures.
-/

namespace Tsalib

/-- Modelled from the spec: a dimension variable has a full name, a short
symbol and an optional default size (a positive integer when present).
The implementation class `DimVar`/`TS` is missing from the corpus. -/
structure DimVar where
  name : String
  symbol : String
  size : Option Nat
deriving DecidableEq, Repr

/-- Modelled from the spec: a symbolic expression is a leaf (integer literal
or dimension variable) or an internal node with operator `+`, `-`, `*` or
floor-division `//`; expressions are immutable trees. -/
inductive TExpr where
  | lit : Int → TExpr
  | dvar : DimVar → TExpr
  | add : TExpr → TExpr → TExpr
  | sub : TExpr → TExpr → TExpr
  | mul : TExpr → TExpr → TExpr
  | fdiv : TExpr → TExpr → TExpr
deriving DecidableEq, Repr

/-- An environment of current sizes for symbols, derived from an input shape;
it overrides the declared default sizes during transform resolution. -/
abbrev Env := List (String × Int)

def lookupEnv (env : Env) (s : String) : Option Int :=
  (env.find? (fun p => p.1 == s)).map (·.2)

/-- Modelled from the spec: evaluation of a symbolic expression.  A variable
evaluates to its current size from the environment if bound there, else to
its declared default size; if neither exists evaluation fails
(UnresolvedSize).  Division is floor division and fails on a zero divisor
(InvalidOperand). -/
def TExpr.eval (env : Env) : TExpr → Option Int
  | .lit n => some n
  | .dvar d =>
      match lookupEnv env d.symbol with
      | some v => some v
      | none => d.size.map (fun n => (n : Int))
  | .add a b => (a.eval env).bind fun x => (b.eval env).map fun y => x + y
  | .sub a b => (a.eval env).bind fun x => (b.eval env).map fun y => x - y
  | .mul a b => (a.eval env).bind fun x => (b.eval env).map fun y => x * y
  | .fdiv a b =>
      (a.eval env).bind fun x => (b.eval env).bind fun y =>
        if y = 0 then none else some (Int.fdiv x y)

/-- Modelled from the spec: the registry is a table from short symbols to
declared dimension variables (the process-wide `DimVar.decls` of the
implementation, made explicit as a value). -/
abbrev Registry := List (String × DimVar)

def lookup (r : Registry) (s : String) : Option DimVar :=
  (r.find? (fun p => p.1 == s)).map (·.2)

/-- Modelled from the spec: declaring a dimension variable mutates the
registry; strict mode fails with an AlreadyDeclared error if the symbol is
already present (the message text is taken from the traceback preserved in
the notebook), relaxed mode overwrites the existing entry silently. -/
def declare (r : Registry) (d : DimVar) (strict : Bool) : Except String Registry :=
  if (lookup r d.symbol).isSome then
    if strict then
      .error ("DimVar " ++ d.symbol ++ " already declared. Use strict=False to skip check.")
    else
      .ok ((d.symbol, d) :: r.filter (fun p => !(p.1 == d.symbol)))
  else
    .ok ((d.symbol, d) :: r)

/-! ### Declaration-string parsing (`Name(symbol):size`) -/

def splitFirst (c : Char) : List Char → List Char × Option (List Char)
  | [] => ([], none)
  | x :: rest =>
      if x = c then ([], some rest)
      else
        let p := splitFirst c rest
        (x :: p.1, p.2)

def parseNat? (cs : List Char) : Option Nat :=
  if cs.isEmpty then none
  else
    cs.foldl
      (fun acc c =>
        acc.bind fun a => if c.isDigit then some (a * 10 + (c.toNat - 48)) else none)
      (some 0)

/-- Modelled from the spec: one declaration token is `Name(symbol):size`
where the parenthesised symbol and the `:size` suffix are optional; a bare
token is both name and symbol. -/
def parseDecl (cs : List Char) : Option DimVar :=
  let p := splitFirst ':' cs
  let head := p.1
  let withSize : Option Nat → Option DimVar := fun sz =>
    let q := splitFirst '(' head
    match q.2 with
    | none => some ⟨String.mk q.1, String.mk q.1, sz⟩
    | some inner =>
        let w := splitFirst ')' inner
        match w.2 with
        | some [] => some ⟨String.mk q.1, String.mk w.1, sz⟩
        | _ => none
  match p.2 with
  | none => withSize none
  | some sizeCs => (parseNat? sizeCs).bind fun n => withSize (some n)

def splitOnChar (c : Char) : List Char → List (List Char)
  | [] => [[]]
  | x :: rest =>
      if x = c then [] :: splitOnChar c rest
      else
        match splitOnChar c rest with
        | [] => [[x]]
        | g :: gs => (x :: g) :: gs

/-- Modelled from the spec: `dim_vars` splits a declaration string on spaces
and declares each token left to right, threading the registry. -/
def dim_vars (r : Registry) (decls : String) (strict : Bool) : Except String Registry :=
  ((splitOnChar ' ' decls.toList).filter (fun g => !g.isEmpty)).foldlM
    (fun reg g =>
      match parseDecl g with
      | some d => declare reg d strict
      | none => .error "ParseError")
    r

/-! ### Shorthand-notation compiler -/

/-- A slot of a parsed shorthand spec: anonymous (empty or `_`), or a
symbolic expression (a bare symbol, an integer literal, or arithmetic). -/
inductive Slot where
  | anon : Slot
  | expr : TExpr → Slot
deriving DecidableEq, Repr

/-- Tokens of the slot-level arithmetic grammar. -/
inductive Tok where
  | num : Nat → Tok
  | id : Char → Tok
  | plus : Tok
  | minus : Tok
  | star : Tok
  | slash2 : Tok
deriving DecidableEq, Repr

def takeNum (acc : Nat) : List Char → Nat × List Char
  | [] => (acc, [])
  | c :: rest =>
      if c.isDigit then takeNum (acc * 10 + (c.toNat - 48)) rest
      else (acc, c :: rest)

/-- Tokenizer for one slot (fuel-driven for structural termination):
single-letter symbols, integer literals, and the operators `+ - * //`. -/
def tokenizeAux : Nat → List Char → Option (List Tok)
  | 0, _ => none
  | _ + 1, [] => some []
  | f + 1, c :: rest =>
      if c = '*' then (tokenizeAux f rest).map (Tok.star :: ·)
      else if c = '+' then (tokenizeAux f rest).map (Tok.plus :: ·)
      else if c = '-' then (tokenizeAux f rest).map (Tok.minus :: ·)
      else if c = '/' then
        match rest with
        | '/' :: r2 => (tokenizeAux f r2).map (Tok.slash2 :: ·)
        | _ => none
      else if c.isDigit then
        let p := takeNum 0 (c :: rest)
        (tokenizeAux f p.2).map (Tok.num p.1 :: ·)
      else if c.isAlpha then (tokenizeAux f rest).map (Tok.id c :: ·)
      else none

def tokenize (cs : List Char) : Option (List Tok) :=
  tokenizeAux (cs.length + 1) cs

/-- An atom is an integer literal or a declared single-letter symbol
(an unknown symbol fails: NotDeclared). -/
def parseAtom (reg : Registry) : List Tok → Option (TExpr × List Tok)
  | .num n :: rest => some (.lit (Int.ofNat n), rest)
  | .id c :: rest => (lookup reg (String.mk [c])).map (fun d => (.dvar d, rest))
  | _ => none

/-- Left-associated chain of `*` and `//` over atoms. -/
def parseTermAux (reg : Registry) : Nat → TExpr → List Tok → Option (TExpr × List Tok)
  | 0, _, _ => none
  | _ + 1, acc, [] => some (acc, [])
  | f + 1, acc, .star :: rest =>
      (parseAtom reg rest).bind fun p => parseTermAux reg f (.mul acc p.1) p.2
  | f + 1, acc, .slash2 :: rest =>
      (parseAtom reg rest).bind fun p => parseTermAux reg f (.fdiv acc p.1) p.2
  | _ + 1, acc, ts => some (acc, ts)

def parseTerm (reg : Registry) (f : Nat) (ts : List Tok) : Option (TExpr × List Tok) :=
  (parseAtom reg ts).bind fun p => parseTermAux reg f p.1 p.2

/-- Left-associated chain of `+` and `-` over terms. -/
def parseExprAux (reg : Registry) : Nat → TExpr → List Tok → Option (TExpr × List Tok)
  | 0, _, _ => none
  | _ + 1, acc, [] => some (acc, [])
  | f + 1, acc, .plus :: rest =>
      (parseTerm reg f rest).bind fun p => parseExprAux reg f (.add acc p.1) p.2
  | f + 1, acc, .minus :: rest =>
      (parseTerm reg f rest).bind fun p => parseExprAux reg f (.sub acc p.1) p.2
  | _ + 1, _, _ => none

/-- Parse a whole slot string as one arithmetic expression. -/
def parseExprStr (reg : Registry) (cs : List Char) : Option TExpr :=
  (tokenize cs).bind fun ts =>
    (parseTerm reg (ts.length + 1) ts).bind fun p =>
      (parseExprAux reg (ts.length + 1) p.1 p.2).bind fun q =>
        if q.2.isEmpty then some q.1 else none

/-- One explicit-form slot: empty or `_` is anonymous, anything else is an
arithmetic expression over declared symbols and integers. -/
def parseSlot (reg : Registry) (cs : List Char) : Option Slot :=
  if cs.isEmpty || cs = ['_'] then some .anon
  else (parseExprStr reg cs).map .expr

def opChars : List Char := [',', '*', '/', '+', '-']

/-- Modelled from the spec: a spec with commas or operators is the explicit
comma-separated form; otherwise each character is one slot (compact form),
where `_` is anonymous, a digit is a literal and a letter is a declared
symbol. -/
def parseSlots (reg : Registry) (cs : List Char) : Option (List Slot) :=
  if cs.any (fun c => opChars.contains c) then
    (splitOnChar ',' cs).mapM (parseSlot reg)
  else
    cs.mapM (fun c =>
      if c = '_' then some Slot.anon
      else if c.isDigit then some (Slot.expr (.lit (Int.ofNat (c.toNat - 48))))
      else (lookup reg (String.mk [c])).map (fun d => Slot.expr (.dvar d)))

def stripSpaces (s : String) : List Char :=
  s.toList.filter (fun c => !(c == ' '))

/-- Split a spec on every `->` arrow. -/
def splitOnArrow : List Char → List (List Char)
  | [] => [[]]
  | '-' :: '>' :: rest => [] :: splitOnArrow rest
  | c :: rest =>
      match splitOnArrow rest with
      | [] => [[c]]
      | g :: gs => (c :: g) :: gs

/-- The registry produced by the notebook's global declarations. -/
def demoRegistry : Registry :=
  match dim_vars []
      "Batch(b):20 SeqLength(t):10 EmbeddingDim(d):100 K(k):1 Channels(c):3 Height(h):256 Width(w):256"
      true with
  | .ok r => r
  | .error _ => []

/-! ### Transform resolvers -/

/-- The current-size environment derived from the source-side slots and the
input shape: every slot that is a bare dimension variable binds its symbol
to the size at that position. -/
def srcEnv : List Slot → List Int → Env
  | .expr (.dvar d) :: ss, n :: ns => (d.symbol, n) :: srcEnv ss ns
  | _ :: ss, _ :: ns => srcEnv ss ns
  | _, _ => []

/-- The input-shape sizes sitting at the anonymous source positions, in
order; target-side anonymous slots copy these through. -/
def anonSizes : List Slot → List Int → List Int
  | .anon :: ss, n :: ns => n :: anonSizes ss ns
  | _ :: ss, _ :: ns => anonSizes ss ns
  | _, _ => []

/-- Resolve the target slots: the i-th anonymous slot copies the i-th
anonymous source size unchanged, every other slot evaluates its expression
under the current-size environment. -/
def resolveTo (env : Env) : List Int → List Slot → Option (List Int)
  | _, [] => some []
  | anons, .anon :: rest =>
      match anons with
      | [] => none
      | n :: ns => (resolveTo env ns rest).map (n :: ·)
  | anons, .expr e :: rest =>
      (e.eval env).bind fun v => (resolveTo env anons rest).map (v :: ·)

/-- Modelled from the spec: `view_transform` resolves the target-side slots
against the input shape, producing the concrete shape tuple to hand to the
host reshape. -/
def view_transform_slots (src dst : List Slot) (in_shape : List Int) : Option (List Int) :=
  resolveTo (srcEnv src in_shape) (anonSizes src in_shape) dst

/-- String form of `view_transform`: `'source -> target'`. -/
def view_transform (reg : Registry) (tfm : String) (in_shape : List Int) : Option (List Int) :=
  match splitOnArrow (stripSpaces tfm) with
  | [s, t] =>
      (parseSlots reg s).bind fun src =>
        (parseSlots reg t).bind fun dst =>
          view_transform_slots src dst in_shape
  | _ => none

/-- Indices (counting from `i`) of the anonymous slots of a spec. -/
def anonPositionsFrom (i : Nat) : List Slot → List Nat
  | [] => []
  | .anon :: rest => i :: anonPositionsFrom (i + 1) rest
  | _ :: rest => anonPositionsFrom (i + 1) rest

/-- Indices of the anonymous slots of a source spec, left to right. -/
def anonPositions (src : List Slot) : List Nat :=
  anonPositionsFrom 0 src

/-- For each target slot emit the index of its identity-matching source
slot; the i-th anonymous target slot matches the i-th anonymous source slot
(UnmatchedDimension if a named slot is absent from the source). -/
def permGo (src : List Slot) : List Nat → List Slot → Option (List Nat)
  | _, [] => some []
  | anons, .anon :: rest =>
      match anons with
      | [] => none
      | i :: is => (permGo src is rest).map (i :: ·)
  | anons, .expr e :: rest =>
      if Slot.expr e ∈ src then
        (permGo src anons rest).map (List.indexOf (Slot.expr e) src :: ·)
      else none

/-- Modelled from the spec: `permute_transform` over two slot sequences
computes the permutation index tuple carrying each source axis to its
target position; mismatched anonymous-slot counts fail
(AmbiguousPlaceholder). -/
def permute_transform_slots (src dst : List Slot) : Option (List Nat) :=
  if dst.countP (fun s => s == Slot.anon) = (anonPositions src).length then
    permGo src (anonPositions src) dst
  else none

/-- String form of `permute_transform`: `'source -> target'`. -/
def permute_transform (reg : Registry) (tfm : String) : Option (List Nat) :=
  match splitOnArrow (stripSpaces tfm) with
  | [s, t] =>
      (parseSlots reg s).bind fun src =>
        (parseSlots reg t).bind fun dst =>
          permute_transform_slots src dst
  | _ => none

/-- Apply a permutation index list to a shape: slot `i` of the result is
slot `perm i` of the input. -/
def applyPerm (shape : List α) (perm : List Nat) : Option (List α) :=
  perm.mapM (fun i => shape.get? i)

/-- Modelled from the spec: `expand_transform` with explicit
`(dimension, new_expression)` pairs.  Every axis of `src` not named in an
expansion carries the default factor `-1`; a named axis carries the exact
integer ratio of the new expression's value to the old size at that axis
(NonIntegerExpansion if the ratio is not whole). -/
def expand_transform_pairs (src : List Slot) (expansions : List (TExpr × TExpr))
    (in_shape : List Int) : Option (List Int) :=
  let env := srcEnv src in_shape
  (src.zip in_shape).mapM fun sn =>
    match expansions.find? (fun p => Slot.expr p.1 == sn.1) with
    | none => some (-1)
    | some pair =>
        (pair.2.eval env).bind fun v =>
          if sn.2 = (0 : Int) then none
          else if v % sn.2 = (0 : Int) then some (v / sn.2) else none

/-- String form of the expansions: `'k->k*5'`. -/
def expand_transform (reg : Registry) (src : List Slot) (expansions : String)
    (in_shape : List Int) : Option (List Int) :=
  match splitOnArrow (stripSpaces expansions) with
  | [l, r] =>
      (parseExprStr reg l).bind fun le =>
        (parseExprStr reg r).bind fun re =>
          expand_transform_pairs src [(le, re)] in_shape
  | _ => none

/-! ### Warp sequencer -/

/-- One warp step: resolve the stage pair with the resolver selected by the
tag (`v` view, `p` permute, `e` expand) and produce the next shape. -/
def warpStep (reg : Registry) (srcS toS : List Char) (tag : Char)
    (cur : List Int) : Option (List Int) :=
  (parseSlots reg srcS).bind fun src =>
    (parseSlots reg toS).bind fun dst =>
      if tag = 'v' then view_transform_slots src dst cur
      else if tag = 'p' then
        (permute_transform_slots src dst).bind (applyPerm cur)
      else if tag = 'e' then
        let pairs := (src.zip dst).filterMap fun ab =>
          match ab.1, ab.2 with
          | .expr ea, .expr eb => if ea = eb then none else some (ea, eb)
          | _, _ => none
        (expand_transform_pairs src pairs cur).map fun fs =>
          (cur.zip fs).map fun nf => if nf.2 = -1 then nf.1 else nf.1 * nf.2
      else none

def warpGo (reg : Registry) : List Int → List Char → List (List Char) → List Char →
    Option (List Int)
  | cur, _, [], [] => some cur
  | cur, prev, next :: more, tag :: tags =>
      (warpStep reg prev next tag cur).bind fun s => warpGo reg s next more tags
  | _, _, _, _ => none

/-- Modelled from the spec: `warp` splits the chain on arrows into stages,
pairs consecutive stages with the tag characters (fatal ConfigurationError
on a count mismatch) and threads the evolving shape through the steps. -/
def warp (reg : Registry) (chain : String) (tags : String) (in_shape : List Int) :
    Option (List Int) :=
  match splitOnArrow (stripSpaces chain) with
  | [] => none
  | st0 :: rest =>
      if rest.length = tags.toList.length then
        warpGo reg in_shape st0 rest tags.toList
      else none

/-! ### Reduction-axis resolver -/

/-- Indices of the source slots that have no identity-matching slot in the
target, in ascending order. -/
def aggResolve (src tgt : List Slot) : List Nat :=
  (List.range src.length).filter (fun i => !(tgt.contains (src.getD i .anon)))

/-- Modelled from the spec: `agg_dims` maps `'source->target'` to the tuple
of dropped axis indices (InvalidReduction if a target slot has no source
counterpart). -/
def agg_dims (reg : Registry) (spec : String) : Option (List Nat) :=
  match splitOnArrow (stripSpaces spec) with
  | [s, t] =>
      (parseSlots reg s).bind fun src =>
        (parseSlots reg t).bind fun tgt =>
          if tgt.all (fun x => src.contains x) then some (aggResolve src tgt)
          else none
  | _ => none

/-! ### Integer coercion and shape equality -/

/-- Modelled from the spec: a symbolic expression coerces to its evaluated
integer value where a plain integer is required (the `__int__`/`__index__`
cast of the implementation). -/
def toConcreteShape (shape : List TExpr) : Option (List Int) :=
  shape.mapM (TExpr.eval [])

/-- Modelled from the spec: a symbolic shape tuple equals a plain integer
shape iff lengths match and each element evaluates to the corresponding
integer. -/
def shapesEqual (symName : List TExpr) (conc : List Int) : Bool :=
  match toConcreteShape symName with
  | some l => l == conc
  | none => false

/-- Modelled from the spec: the host library's tensor constructor consumes
the coerced integers; the constructed array is represented by its concrete
shape. -/
def npZeros (dims : List TExpr) : Option (List Int) :=
  toConcreteShape dims

/-! ### The notebook's declared dimension variables -/

def B : DimVar := ⟨"Batch", "b", some 20⟩

def T : DimVar := ⟨"SeqLength", "t", some 10⟩

def D : DimVar := ⟨"EmbeddingDim", "d", some 100⟩

def K : DimVar := ⟨"K", "k", some 1⟩

def C : DimVar := ⟨"Channels", "c", some 3⟩

def H : DimVar := ⟨"Height", "h", some 256⟩

def W : DimVar := ⟨"Width", "w", some 256⟩

/-- The tuple annotation `(B, T, D, K)` as a slot sequence. -/
def btdkSlots : List Slot :=
  [.expr (.dvar B), .expr (.dvar T), .expr (.dvar D), .expr (.dvar K)]

/-- The tuple annotation `(D, T, B, K)` as a slot sequence. -/
def dtbkSlots : List Slot :=
  [.expr (.dvar D), .expr (.dvar T), .expr (.dvar B), .expr (.dvar K)]

/-- The tuple annotation `(B, K, T, D)` as a slot sequence. -/
def bktdSlots : List Slot :=
  [.expr (.dvar B), .expr (.dvar K), .expr (.dvar T), .expr (.dvar D)]

/-- Compose two permutation index lists: applying `p` to a shape and then
`q` relabels slot `i` of the final shape to slot `p (q i)` of the original,
so the composite index list is `q.map (p ·)`. -/
def compPerm (p q : List Nat) : List Nat :=
  q.map (fun i => p.getD i 0)

/-- If a spec has no anonymous slot, it has no anonymous positions. -/
lemma anonPositionsFrom_eq_nil {src : List Slot} (h : ∀ s ∈ src, s ≠ Slot.anon) (i : Nat) :
    anonPositionsFrom i src = [] := by
  induction src generalizing i with
  | nil => rfl
  | cons a rest ih =>
      cases a with
      | anon => exact absurd rfl (h _ (List.mem_cons_self _ _))
      | expr e =>
          simpa [anonPositionsFrom] using ih (fun s hs => h s (List.mem_cons_of_mem _ hs)) (i + 1)

/-- On all-named target slots that occur in the source, the permutation
resolver emits the source index of each target slot. -/
lemma permGo_named {src : List Slot} {dst : List Slot}
    (hsub : ∀ s ∈ dst, s ∈ src) (hna : ∀ s ∈ dst, s ≠ Slot.anon) :
    permGo src [] dst = some (dst.map (fun s => List.indexOf s src)) := by
  induction dst with
  | nil => rfl
  | cons a rest ih =>
      cases a with
      | anon => exact absurd rfl (hna _ (List.mem_cons_self _ _))
      | expr e =>
          have hm : Slot.expr e ∈ src := hsub _ (List.mem_cons_self _ _)
          simp [permGo, hm,
            ih (fun s hs => hsub s (List.mem_cons_of_mem _ hs))
               (fun s hs => hna s (List.mem_cons_of_mem _ hs))]

/-- Composing the two index maps of a bijective slot pair gives the
identity permutation. -/
lemma compPerm_indexOf {src dst : List Slot} (hnd : src.Nodup) (hperm : dst.Perm src) :
    compPerm (dst.map (fun s => List.indexOf s src))
      (src.map (fun s => List.indexOf s dst)) = List.range src.length := by
  apply List.ext_getElem
  · simp [compPerm]
  · intro i h1 h2
    simp only [compPerm, List.getElem_map, List.getElem_range]
    have hilen : i < src.length := by simpa [compPerm] using h1
    have hmemsrc : src[i] ∈ src := List.getElem_mem hilen
    have hmemdst : src[i] ∈ dst := hperm.mem_iff.mpr hmemsrc
    have hj : List.indexOf src[i] dst < dst.length := List.indexOf_lt_length.mpr hmemdst
    have hj2 : List.indexOf src[i] dst < (dst.map (fun s => List.indexOf s src)).length := by
      simpa using hj
    rw [List.getD_eq_getElem?_getD, List.getElem?_eq_getElem hj2]
    simp only [List.getElem_map, Option.getD_some]
    rw [List.getElem_indexOf hj]
    exact List.indexOf_getElem hnd i hilen

/-! ### Claim theorems -/

/-- C1: with dimension variables declared as `Batch(b):20 SeqLength(t):10
EmbeddingDim(d):100`, `view_transform 'btd -> b,t,4,d//4'` applied to the
input shape `(20,10,100)` returns the concrete tuple `(20,10,4,25)`. -/
theorem claim_C1_view_transform :
    view_transform demoRegistry "btd -> b,t,4,d//4" [20, 10, 100] =
      some [20, 10, 4, 25] := by
  decide

/-- C2: with `b,t,d,k` declared, `permute_transform 'btdk -> dtbk'` returns
the permutation index tuple `(2,1,0,3)`, and the tuple form on
`src=(B,T,D,K)`, `to=(D,T,B,K)` (for each target slot, the index of its
identity-matching source slot) returns the same tuple. -/
theorem claim_C2_permute_transform :
    permute_transform demoRegistry "btdk -> dtbk" = some [2, 1, 0, 3] ∧
    permute_transform_slots btdkSlots dtbkSlots = some [2, 1, 0, 3] := by
  constructor
  · decide
  · decide

/-- C3: `expand_transform` on `src=(B,K,T,D)` with expansions `'k->k*5'` and
input shape `(20,1,10,100)` returns `(-1,5,-1,-1)`: unnamed axes carry the
default factor `-1` and axis `k` carries the integer ratio of the new
expression's value to its old size; the pair-list form `[(K, K*5)]` returns
the same tuple. -/
theorem claim_C3_expand_transform :
    expand_transform demoRegistry bktdSlots "k->k*5" [20, 1, 10, 100] =
      some [-1, 5, -1, -1] ∧
    expand_transform_pairs bktdSlots [(.dvar K, .mul (.dvar K) (.lit 5))]
      [20, 1, 10, 100] = some [-1, 5, -1, -1] := by
  constructor
  · decide
  · decide

/-- C4: `warp` with an all-view chain that starts at `'btd'` and whose
final stage is `'btd'` again (with the intermediate factor 4), applied to a
tensor of shape `(20,10,100)`, returns the shape `(20,10,100)`: both the
two-step chain of the spec and the notebook's four-step chain round-trip. -/
theorem claim_C4_warp_roundtrip :
    warp demoRegistry "btd -> b,t,4,d//4 -> btd" "vv" [20, 10, 100] =
      some [20, 10, 100] ∧
    warp demoRegistry "btd -> b,t,4,d//4 -> b*t,4,d//4 -> b,t,4,d//4 -> btd"
      "vvvv" [20, 10, 100] = some [20, 10, 100] := by
  constructor
  · decide
  · decide

/-- C9: anonymous target slots in `view_transform` copy the corresponding
source-position size from the input shape unchanged:
`view_transform 'b,t,, -> b*t,,'` on `(20,10,4,25)` returns `(200,4,25)`,
the two anonymous target slots carrying the sizes 4 and 25 even though the
target has fewer slots than the source. -/
theorem claim_C9_view_anonymous :
    view_transform demoRegistry "b,t,, -> b*t,," [20, 10, 4, 25] =
      some [200, 4, 25] := by
  decide

/-- C10: a dimension variable with a declared default size coerces to its
evaluated integer value where a plain integer is required: constructing a
tensor with `np.zeros((B, C))` for `Batch(b):20`, `Channels(c):3` yields an
array of concrete shape `(20, 3)`, and that concrete shape compares equal
to the annotation tuple `(B, C)`. -/
theorem claim_C10_cast_int :
    npZeros [.dvar B, .dvar C] = some [20, 3] ∧
    shapesEqual [.dvar B, .dvar C] [20, 3] = true := by
  constructor
  · decide
  · decide

/-- C7: for every dimension variable with declared default size `n` and
every positive integer `k`, evaluating `X // k` yields exactly `n // k`
(floor division) and evaluating `X * k` yields exactly `n * k`, as exact
integer arithmetic. -/
theorem claim_C7_arith (nm sy : String) (n k : Nat) (hk : 0 < k) :
    TExpr.eval [] (.fdiv (.dvar ⟨nm, sy, some n⟩) (.lit (k : Int))) =
      some ((n / k : Nat) : Int) ∧
    TExpr.eval [] (.mul (.dvar ⟨nm, sy, some n⟩) (.lit (k : Int))) =
      some ((n * k : Nat) : Int) := by
  have hk0 : (k : Int) ≠ 0 := by exact_mod_cast hk.ne'
  constructor
  · simp [TExpr.eval, lookupEnv, hk0]
    exact Int.fdiv_eq_ediv _ (Int.natCast_nonneg k)
  · simp [TExpr.eval, lookupEnv]

/-- Witness for C7: with `Height(h):256`, `H // 4` evaluates to 64 and with
`Width(w):256`, `W * 2` evaluates to 512. -/
theorem claim_C7_arith_witness :
    (0 < 4 ∧ TExpr.eval [] (.fdiv (.dvar H) (.lit 4)) = some 64) ∧
    (0 < 2 ∧ TExpr.eval [] (.mul (.dvar W) (.lit 2)) = some 512) :=
  ⟨⟨by decide, (claim_C7_arith "Height" "h" 256 4 (by decide)).1⟩,
   ⟨by decide, (claim_C7_arith "Width" "w" 256 2 (by decide)).2⟩⟩

/-- C5: redeclaring a symbol already present in the registry fails in
strict mode with the AlreadyDeclared error and yields no new registry,
while with strict mode off it succeeds, overwrites silently, and a
subsequent lookup of the symbol returns the newly declared variable. -/
theorem claim_C5_redeclare (r : Registry) (d : DimVar)
    (h : (lookup r d.symbol).isSome) :
    declare r d true =
      .error ("DimVar " ++ d.symbol ++ " already declared. Use strict=False to skip check.") ∧
    (∀ r2, declare r d true ≠ .ok r2) ∧
    (∃ r2, declare r d false = .ok r2 ∧ lookup r2 d.symbol = some d) := by
  refine ⟨?_, ?_, ?_⟩
  · simp [declare, h]
  · intro r2
    simp [declare, h]
  · refine ⟨(d.symbol, d) :: r.filter (fun p => !(p.1 == d.symbol)), ?_, ?_⟩
    · simp [declare, h]
    · simp [lookup, List.find?]

/-- Witness for C5: `h` is declared in the demo registry; redeclaring it
relaxed as `Height(h):512` succeeds and the lookup returns the new size. -/
theorem claim_C5_redeclare_witness :
    (lookup demoRegistry "h").isSome = true ∧
    (∃ r2, declare demoRegistry ⟨"Height", "h", some 512⟩ false = .ok r2 ∧
      lookup r2 "h" = some ⟨"Height", "h", some 512⟩) :=
  ⟨by decide, (claim_C5_redeclare demoRegistry ⟨"Height", "h", some 512⟩ (by decide)).2.2⟩

/-- C6: `agg_dims '2bd->2d'` returns `(1,)` and `agg_dims '2bd->2'` returns
`(1,2)`; in general the resolver returns, in ascending order, exactly the
axis indices of the source slots that have no identity-matching slot in the
target. -/
theorem claim_C6_agg_dims :
    agg_dims demoRegistry "2bd->2d" = some [1] ∧
    agg_dims demoRegistry "2bd->2" = some [1, 2] ∧
    (∀ src tgt : List Slot, List.Sorted (· < ·) (aggResolve src tgt)) ∧
    (∀ (src tgt : List Slot) (i : Nat),
      i ∈ aggResolve src tgt ↔ i < src.length ∧ src.getD i .anon ∉ tgt) := by
  refine ⟨by decide, by decide, ?_, ?_⟩
  · intro src tgt
    exact (List.sorted_lt_range src.length).filter _
  · intro src tgt i
    simp [aggResolve, List.mem_filter, List.mem_range]

/-- C8: for every bijective source/target slot pair over the same set of
named dimensions, composing the permutation returned by
`permute_transform src dst` with the one returned by
`permute_transform dst src` (in either order) is the identity permutation;
in particular transposing by `pt 'btdk -> dtbk'` and then by
`pt 'd_b_ -> b_d_'` restores the original axis order `(B,T,D,K)`. -/
theorem claim_C8_permute_inverse :
    (∀ src dst : List Slot, src.Nodup → dst.Perm src →
      (∀ s ∈ src, s ≠ Slot.anon) →
      ∃ p q, permute_transform_slots src dst = some p ∧
        permute_transform_slots dst src = some q ∧
        compPerm p q = List.range src.length ∧
        compPerm q p = List.range src.length) ∧
    (∃ p1 p2 s1 s2,
      permute_transform demoRegistry "btdk -> dtbk" = some p1 ∧
      permute_transform demoRegistry "d_b_ -> b_d_" = some p2 ∧
      applyPerm btdkSlots p1 = some s1 ∧
      applyPerm s1 p2 = some s2 ∧ s2 = btdkSlots) := by
  constructor
  · intro src dst hnd hperm hna
    have hsub1 : ∀ s ∈ dst, s ∈ src := fun s hs => hperm.mem_iff.mp hs
    have hsub2 : ∀ s ∈ src, s ∈ dst := fun s hs => hperm.mem_iff.mpr hs
    have hnadst : ∀ s ∈ dst, s ≠ Slot.anon := fun s hs => hna s (hsub1 s hs)
    have hap_src : anonPositions src = [] := anonPositionsFrom_eq_nil hna 0
    have hap_dst : anonPositions dst = [] := anonPositionsFrom_eq_nil hnadst 0
    have hc_dst : dst.countP (fun s => s == Slot.anon) = 0 := by
      rw [List.countP_eq_zero]
      intro a ha
      simpa using hnadst a ha
    have hc_src : src.countP (fun s => s == Slot.anon) = 0 := by
      rw [List.countP_eq_zero]
      intro a ha
      simpa using hna a ha
    refine ⟨dst.map (fun s => List.indexOf s src), src.map (fun s => List.indexOf s dst),
      ?_, ?_, ?_, ?_⟩
    · simp [permute_transform_slots, hap_src, hc_dst, permGo_named hsub1 hnadst]
    · simp [permute_transform_slots, hap_dst, hc_src, permGo_named hsub2 hna]
    · exact compPerm_indexOf hnd hperm
    · have hnd2 : dst.Nodup := (hperm.nodup_iff).mpr hnd
      have h2 := compPerm_indexOf hnd2 hperm.symm
      rwa [hperm.length_eq] at h2
  · exact ⟨[2, 1, 0, 3], [2, 1, 0, 3], dtbkSlots, btdkSlots,
      by decide, by decide, by decide, by decide, rfl⟩

/-- Witness for C8: the inverse-composition law applied to the concrete
bijective pair `(B,T,D,K)`/`(D,T,B,K)`. -/
theorem claim_C8_permute_inverse_witness :
    ∃ p q, permute_transform_slots btdkSlots dtbkSlots = some p ∧
      permute_transform_slots dtbkSlots btdkSlots = some q ∧
      compPerm p q = List.range btdkSlots.length ∧
      compPerm q p = List.range btdkSlots.length :=
  claim_C8_permute_inverse.1 btdkSlots dtbkSlots (by decide) (by decide) (by decide)

end Tsalib
